import Mathlib

/-!
Verification of the label_tools repository (three Python scripts that render
2"x2" trading-card labels and 4"x3" comic labels as one-page-per-record PDF
documents).

Shallow embedding conventions:
* Python strings are `List Char` (`PyStr`); `str.strip()` is `pyStrip`,
  `str.split()` with no argument is `pySplit`.
* Geometry is exact rational arithmetic (`ℚ`); the reportlab unit `inch`
  is 72 points, so the 4x3 page is 288 x 216 and the 2x2 page is 144 x 144.
* The external reportlab canvas is modelled by its observable effects: a
  list of `DrawOp` values.  `canvas.stringWidth` is an abstract function
  `sw : PyStr → String → ℚ → ℚ` (text, font name, font size).  The external
  Code128 barcode object is modelled by abstract functions `bcw`/`bch`
  giving its native width and height for a payload, and `simpleSplit`
  (the external wrapper used by the card scripts) by an abstract function
  `wrapF : PyStr → String → ℚ → ℚ → List PyStr`.
* `SystemExit` / `ValueError` followed by no `canvas.save()` call are
  modelled with `Except String`: `Except.error msg` means the run aborted
  with `msg` and no output document was written; `Except.ok pages` means a
  document with exactly `pages` was saved.
-/

namespace LabelTools

/-- Python strings as lists of code points. -/
abbrev PyStr := List Char

/-- Python `str.strip()` (no argument): drop leading and trailing whitespace. -/
def pyStrip (s : PyStr) : PyStr :=
  ((s.dropWhile Char.isWhitespace).reverse.dropWhile Char.isWhitespace).reverse

/-- Helper for `pySplit`: `acc` holds the current word reversed. -/
def pySplitAux : PyStr → PyStr → List PyStr
  | acc, [] => if acc.isEmpty then [] else [acc.reverse]
  | acc, c :: cs =>
    if c.isWhitespace then
      if acc.isEmpty then pySplitAux [] cs else acc.reverse :: pySplitAux [] cs
    else pySplitAux (c :: acc) cs

/-- Python `str.split()` with no argument: split on runs of whitespace,
discarding empty pieces. -/
def pySplit (s : PyStr) : List PyStr := pySplitAux [] s

/-- One observable drawing effect on the reportlab canvas. -/
inductive DrawOp where
  | drawString (x y : ℚ) (font : String) (size : ℚ) (s : PyStr)
  | drawCentredString (x y : ℚ) (font : String) (size : ℚ) (s : PyStr)
  | drawBarcode (x y scale : ℚ) (payload : PyStr)
deriving DecidableEq

/-- The string drawn by an op (the payload, for a barcode). -/
def DrawOp.text : DrawOp → PyStr
  | .drawString _ _ _ _ s => s
  | .drawCentredString _ _ _ _ s => s
  | .drawBarcode _ _ _ p => p

/-- Whether the op places the barcode symbol. -/
def DrawOp.isBarcode : DrawOp → Bool
  | .drawBarcode _ _ _ _ => true
  | _ => false

/-- Horizontal position of an op. -/
def DrawOp.xPos : DrawOp → ℚ
  | .drawString x _ _ _ _ => x
  | .drawCentredString x _ _ _ _ => x
  | .drawBarcode x _ _ _ => x

/-- Vertical position of an op. -/
def DrawOp.yPos : DrawOp → ℚ
  | .drawString _ y _ _ _ => y
  | .drawCentredString _ y _ _ _ => y
  | .drawBarcode _ y _ _ => y

/-- Scale applied to an op (text ops are unscaled). -/
def DrawOp.scaleOf : DrawOp → ℚ
  | .drawBarcode _ _ sc _ => sc
  | _ => 1

/-- Loop body of the comic-variant `wrap_text`
(`4x3_Comic_Labels/make_comic_4x3_labels.py`, lines 41-56): the running
`line`, the remaining `words` and the cursor `y`; each flushed line becomes a
`drawString` op at the current cursor, which then moves down by `leading`. -/
def wrapAux (sw : PyStr → String → ℚ → ℚ) (x width leading : ℚ)
    (fn : String) (fs : ℚ) : List PyStr → PyStr → ℚ → List DrawOp × ℚ
  | [], line, y =>
    if line.isEmpty then ([], y)
    else ([DrawOp.drawString x y fn fs line], y - leading)
  | w :: ws, line, y =>
    let test := pyStrip (line ++ ' ' :: w)
    if sw test fn fs ≤ width then
      wrapAux sw x width leading fn fs ws test y
    else
      let rest := wrapAux sw x width leading fn fs ws w (y - leading)
      (DrawOp.drawString x y fn fs line :: rest.1, rest.2)

/-- The comic-variant `wrap_text(canvas, text, x, y, width, leading,
font_name, font_size)` (`make_comic_4x3_labels.py`, lines 39-56).  Returns
the emitted draw ops and the new `y`. -/
def wrap_text (sw : PyStr → String → ℚ → ℚ) (text : PyStr)
    (x y width leading : ℚ) (fn : String) (fs : ℚ) : List DrawOp × ℚ :=
  wrapAux sw x width leading fn fs (pySplit text) [] y

/-- Join words with single spaces (the "current line" of the spec-described
greedy algorithm, 4.2: accumulate whitespace-separated words into the
current line). -/
def joinWords : List PyStr → PyStr
  | [] => []
  | [w] => w
  | w :: ws => w ++ ' ' :: joinWords ws

/-- Spec-described greedy wrapper, word-list state (see `greedySpecWrap`). -/
def greedySpecAux (sw : PyStr → String → ℚ → ℚ) (fn : String)
    (fs width : ℚ) : List PyStr → List PyStr → List PyStr
  | [], cur => if cur.isEmpty then [] else [joinWords cur]
  | w :: ws, cur =>
    let tentative := joinWords (cur ++ [w])
    if sw tentative fn fs ≤ width then
      greedySpecAux sw fn fs width ws (cur ++ [w])
    else
      joinWords cur :: greedySpecAux sw fn fs width ws [w]

/-- Transcribed from the spec's words (4.2): "a greedy word-boundary
algorithm: accumulate whitespace-separated words into the current line while
the tentative line width fits; otherwise flush the current line and start a
new one with the overflowing word", emitting the final non-empty current
line last.  This is the comparison definition for the refinement claim C2;
the code-derived definition is `wrap_text`. -/
def greedySpecWrap (sw : PyStr → String → ℚ → ℚ) (fn : String)
    (fs width : ℚ) (text : PyStr) : List PyStr :=
  greedySpecAux sw fn fs width (pySplit text) []

/-- Python `s.replace(a, b)` for single-character `a`, `b`. -/
def pyReplaceChar (a b : Char) (s : PyStr) : PyStr :=
  s.map (fun c => if c = a then b else c)

/-- `normalize_text` (`make_comic_4x3_labels.py`, lines 27-36): map the
unicode hyphen/dash/space variants to ASCII, in the source's order. -/
def normalize_text (s : PyStr) : PyStr :=
  if s.isEmpty then []
  else
    pyReplaceChar '\u2010' '-'
      (pyReplaceChar '\u00a0' ' '
        (pyReplaceChar '\u2014' '-'
          (pyReplaceChar '\u2013' '-'
            (pyReplaceChar '\u2011' '-' s))))

/-- The per-character substitution performed by `normalize_text`. -/
def normChar (c : Char) : Char :=
  if c = '\u2011' ∨ c = '\u2013' ∨ c = '\u2014' ∨ c = '\u2010' then '-'
  else if c = '\u00a0' then ' ' else c

/-- `substOk s t` holds when `t` arises from `s` by replacing, at any subset
of positions, a character by its `normChar` image (e.g. an en dash by a
hyphen-minus). -/
def substOk : PyStr → PyStr → Bool
  | [], [] => true
  | a :: s, b :: t => (b = a || b = normChar a) && substOk s t
  | _, _ => false

/-- One comic-variant row after `row[:8]` destructuring
(`make_comic_4x3_labels.py`, line 59). -/
structure ComicRow where
  title : PyStr
  b1 : PyStr
  b2 : PyStr
  b3 : PyStr
  publisher : PyStr
  price : PyStr
  inv_id : PyStr
  barcode_num : PyStr
deriving DecidableEq

/-- Line 59: every column is passed through `normalize_text`. -/
def normalizeRow (r : ComicRow) : ComicRow :=
  ⟨normalize_text r.title, normalize_text r.b1, normalize_text r.b2,
   normalize_text r.b3, normalize_text r.publisher, normalize_text r.price,
   normalize_text r.inv_id, normalize_text r.barcode_num⟩

/-- Font-name constants of the comic script. -/
def fontH : String := "Helvetica"

def fontHB : String := "Helvetica-Bold"

def fontHO : String := "Helvetica-Oblique"

/-- The bullet line `f"• {b.strip()}"` of `make_comic_4x3_labels.py`
line 74. -/
def comicBulletLine (b : PyStr) : PyStr :=
  '\u2022' :: ' ' :: pyStrip b

/-- The publisher line `f"• Publisher: {publisher.strip()}"` of
`make_comic_4x3_labels.py` line 80. -/
def comicPubLine (publisher : PyStr) : PyStr :=
  '\u2022' :: ' ' :: (( "Publisher: " ).data ++ pyStrip publisher)

/-- The bullet loop of `make_comic_4x3_labels.py`, lines 73-76, run on the
already-filtered bullet list: wrap each `"• " + b.strip()` at width 252
(= `MAX_TEXT_W`), leading 11, Helvetica 11, then subtract 3. -/
def drawBullets (sw : PyStr → String → ℚ → ℚ) (x : ℚ) :
    List PyStr → ℚ → List DrawOp × ℚ
  | [], y => ([], y)
  | b :: bs, y =>
    let first := wrap_text sw (comicBulletLine b) x y 252 11 fontH 11
    let rest := drawBullets sw x bs (first.2 - 3)
    (first.1 ++ rest.1, rest.2)

/-- Lines 71-81 of `make_comic_4x3_labels.py`: filter the bullets by
`b and b.strip()`, draw them, then draw the publisher line when
`publisher.strip()` is non-empty (Helvetica-Oblique 11), subtracting 3
after it. -/
def bulletsAndPublisher (sw : PyStr → String → ℚ → ℚ) (x : ℚ)
    (bs : List PyStr) (publisher : PyStr) (y : ℚ) : List DrawOp × ℚ :=
  let bullets := bs.filter (fun b => !b.isEmpty && !(pyStrip b).isEmpty)
  let drawn := drawBullets sw x bullets y
  if (pyStrip publisher).isEmpty then drawn
  else
    let pub := wrap_text sw (comicPubLine publisher) x drawn.2 252 11 fontHO 11
    (drawn.1 ++ pub.1, pub.2 - 3)

/-- Uniform "wrap one prefixed line then subtract 3" fold used to state
claim C9: each item is a (text, font) pair drawn at width 252, leading 11,
size 11. -/
def comicSectionSpec (sw : PyStr → String → ℚ → ℚ) (x : ℚ) :
    List (PyStr × String) → ℚ → List DrawOp × ℚ
  | [], y => ([], y)
  | it :: rest, y =>
    let first := wrap_text sw it.1 x y 252 11 it.2 11
    let tail := comicSectionSpec sw x rest (first.2 - 3)
    (first.1 ++ tail.1, tail.2)

/-- The (text, font) items that lines 71-81 actually draw: the non-blank
bullets in order, each as `"• " + strip`, then the publisher line when
non-blank. -/
def comicSectionItems (bs : List PyStr) (publisher : PyStr) :
    List (PyStr × String) :=
  (bs.filter (fun b => !(pyStrip b).isEmpty)).map
      (fun b => (comicBulletLine b, fontH))
    ++ (if (pyStrip publisher).isEmpty then []
        else [(comicPubLine publisher, fontHO)])

/-- `draw_label` body of `make_comic_4x3_labels.py` (lines 58-117) on an
already-normalized row: title wrap (bold 12, leading 13, then `+ 2` and
`- 3`), bullets and publisher, price line, inventory line, centered barcode
number, the scaled centered Code128 symbol, and the centered footer.
`sw` is `canvas.stringWidth`; `bcw`/`bch` give the native width/height of
the Code128 object for a payload. -/
def drawLabelCore (sw : PyStr → String → ℚ → ℚ) (bcw bch : PyStr → ℚ)
    (r : ComicRow) : List DrawOp :=
  let price_display := pyStrip r.price
  let x : ℚ := 18
  let y0 : ℚ := 216 - 18
  let t := wrap_text sw r.title x y0 252 13 fontHB 12
  let y1 := t.2 + 2 - 3
  let bp := bulletsAndPublisher sw x [r.b1, r.b2, r.b3] r.publisher y1
  let y2 := bp.2
  let priceTag : PyStr := '\u2022' :: ( " Price: " ).data
  let priceOps := [DrawOp.drawString x y2 fontHB 12 priceTag,
    DrawOp.drawString (x + sw priceTag fontHB 12) y2 fontHB 12 price_display]
  let y3 := y2 - 15
  let invOp := DrawOp.drawString x y3 fontHB 12
    (( "Inventory ID: " ).data ++ r.inv_id)
  let y4 := y3 - 12 - 6
  let numOp := DrawOp.drawCentredString (288 / 2) y4 fontH 9 r.barcode_num
  let y5 := y4 - 6
  let scale := min ((2.6 * 72) / bcw r.barcode_num) 1.8
  let bc_x := (288 - bcw r.barcode_num * scale) / 2
  let bc_y := y5 - bch r.barcode_num * scale
  let bcOp := DrawOp.drawBarcode bc_x bc_y scale r.barcode_num
  let footOp := DrawOp.drawCentredString (288 / 2) (bc_y - 12) fontHB 10
    (r.inv_id ++ ( "   " ).data ++ price_display)
  t.1 ++ bp.1 ++ priceOps ++ [invOp, numOp, bcOp, footOp]

/-- `draw_label(c, row)` of `make_comic_4x3_labels.py`: normalize every
column (line 59), then lay the label out. -/
def draw_label (sw : PyStr → String → ℚ → ℚ) (bcw bch : PyStr → ℚ)
    (r : ComicRow) : List DrawOp :=
  drawLabelCore sw bcw bch (normalizeRow r)

/-- One card-variant label record (`2x2_TradingCard_Labels/*.py`,
`read_rows`, lines 60-68): the fourth (price-source) column is dropped. -/
structure CardRecord where
  title : PyStr
  b1 : PyStr
  b2 : PyStr
  price : PyStr
  inv : PyStr
  barcode : PyStr
deriving DecidableEq

/-- The blank-row test shared by both variants
(`if not row or all(not (cell or "").strip() for cell in row)`). -/
def isBlankRow (row : List PyStr) : Bool :=
  row.isEmpty || row.all (fun cell => (pyStrip cell).isEmpty)

/-- Card-variant per-row extraction (`read_rows`, lines 57-68): right-pad
with empty strings to length 7, slice to the first 7 fields, strip each,
and destructure, dropping the fourth (price-source) column. -/
def cardRowRecord (raw : List PyStr) : CardRecord :=
  let padded := raw ++ List.replicate (7 - raw.length) []
  let fields := (padded.take 7).map pyStrip
  { title := fields.getD 0 [], b1 := fields.getD 1 [], b2 := fields.getD 2 [],
    price := fields.getD 4 [], inv := fields.getD 5 [],
    barcode := fields.getD 6 [] }

/-- The row loop of the card-variant `read_rows` (lines 54-68), applied to
the rows the csv reader produced: skip blank rows, keep one record per
remaining row in input order. -/
def read_rows : List (List PyStr) → List CardRecord
  | [] => []
  | raw :: rest =>
    if isBlankRow raw then read_rows rest
    else cardRowRecord raw :: read_rows rest

/-- Title loop of the card `draw_label` (lines 85-89 of
`make_card_2x2_labels.py`): `y -= TITLE_SIZE` for the first line and
`TITLE_SIZE + 1` for later ones, drawing each line at the decremented
cursor (Helvetica-Bold 10). -/
def cardTitleLoop (x : ℚ) : List PyStr → ℚ → Bool → List DrawOp × ℚ
  | [], y, _ => ([], y)
  | l :: ls, y, first =>
    let y1 := y - (if first then 10 else 10 + 1)
    let rest := cardTitleLoop x ls y1 false
    (DrawOp.drawString x y1 fontHB 10 l :: rest.1, rest.2)

/-- Inner bullet-line loop of the card `draw_label` (lines 100-104):
`y -= BODY_SIZE + (LINE_GAP if last line else 1)` before drawing each
wrapped line (Helvetica 9). -/
def cardBulletLoop (x : ℚ) : List PyStr → ℚ → List DrawOp × ℚ
  | [], y => ([], y)
  | [l], y =>
    let y1 := y - (9 + 3)
    ([DrawOp.drawString x y1 fontH 9 l], y1)
  | l :: ls, y =>
    let y1 := y - (9 + 1)
    let rest := cardBulletLoop x ls y1
    (DrawOp.drawString x y1 fontH 9 l :: rest.1, rest.2)

/-- Outer bullet loop of the card `draw_label` (lines 94-104): wrap each
synthesized bullet text with the external wrapper `wrapF` (reportlab
`simpleSplit`) and draw its lines. -/
def cardBullets (wrapF : PyStr → String → ℚ → ℚ → List PyStr) (x uw : ℚ) :
    List PyStr → ℚ → List DrawOp × ℚ
  | [], y => ([], y)
  | t :: ts, y =>
    let lines := wrapF t fontH 9 uw
    let first := cardBulletLoop x lines y
    let rest := cardBullets wrapF x uw ts first.2
    (first.1 ++ rest.1, rest.2)

/-- The card bullet glyph line `f"• {line}"` (line 93; no stripping in this
variant). -/
def cardBulletLine (b : PyStr) : PyStr :=
  '\u2022' :: ' ' :: b

/-- Text section of the card `draw_label` (lines 79-106): title lines, the
four synthesized bullets, then `y -= BAR_GAP`.  Returns the emitted ops and
the cursor that feeds the barcode clamp. -/
def cardLayout (wrapF : PyStr → String → ℚ → ℚ → List PyStr)
    (r : CardRecord) : List DrawOp × ℚ :=
  let x : ℚ := 8
  let uw : ℚ := 144 - 8 - 8
  let y0 : ℚ := 144 - 8
  let title_lines := wrapF r.title fontHB 10 uw
  let t := cardTitleLoop x title_lines y0 true
  let bullets := [cardBulletLine r.b1, cardBulletLine r.b2,
    cardBulletLine (( "Price: " ).data ++ r.price),
    cardBulletLine (( "ID: " ).data ++ r.inv)]
  let b := cardBullets wrapF x uw bullets t.2
  (t.1 ++ b.1, b.2 - 6)

/-- `draw_label(c, row)` of `make_card_2x2_labels.py` lines 74-118 (the
`draw_label` of `make_pokemon_2x2_labels.py` lines 70-120 is character-for-
character the same layout): text section, then the Code128 symbol at
`bc_x = (PAGE_W - bc.width)/2`, `bc_y = max(8, y - BARCODE_HEIGHT)` with
`BARCODE_HEIGHT = 0.45 * 72`, then the centered footer. -/
def cardDrawLabel (wrapF : PyStr → String → ℚ → ℚ → List PyStr)
    (bcw : PyStr → ℚ) (r : CardRecord) : List DrawOp :=
  let body := cardLayout wrapF r
  let bc_x := (144 - bcw r.barcode) / 2
  let bc_y := max 8 (body.2 - 0.45 * 72)
  let footer := r.inv ++ ( "    " ).data ++ r.price
  body.1 ++ [DrawOp.drawBarcode bc_x bc_y 1 r.barcode,
    DrawOp.drawCentredString (144 / 2) (bc_y - 2 - 9) fontHB 9 footer]

/-- The comic schema error message (`make_comic_4x3_labels.py`, line 140). -/
def comicSchemaMsg : String :=
  "Each row must have 8 columns (Title, Bullet1, Bullet2, Bullet3, Publisher, Price, Inventory ID, Barcode)."

/-- The card zero-rows error message (`make_card_2x2_labels.py`, line 136). -/
def cardNoRowsMsg : String :=
  "[error] No rows parsed. Check your separators (tab or comma)."

/-- Destructuring of a comic `row[:8]` into the eight columns. -/
def comicRowRecord (row : List PyStr) : ComicRow :=
  ⟨row.getD 0 [], row.getD 1 [], row.getD 2 [], row.getD 3 [],
   row.getD 4 [], row.getD 5 [], row.getD 6 [], row.getD 7 []⟩

/-- The row loop of the comic `main` (`make_comic_4x3_labels.py`, lines
136-142): skip blank rows, raise `ValueError` on a non-blank row with fewer
than 8 fields (which aborts the run before `c.save()`, so no document is
written), otherwise draw `row[:8]` as one page. -/
def comicProcessRows (sw : PyStr → String → ℚ → ℚ) (bcw bch : PyStr → ℚ) :
    List (List PyStr) → Except String (List (List DrawOp))
  | [] => Except.ok []
  | row :: rest =>
    if isBlankRow row then comicProcessRows sw bcw bch rest
    else if row.length < 8 then Except.error comicSchemaMsg
    else
      (comicProcessRows sw bcw bch rest).map
        (fun pages => draw_label sw bcw bch (comicRowRecord (row.take 8)) :: pages)

/-- The comic `main` (lines 133-144) after the input file was read and
csv-parsed into rows: the whole batch either aborts with an error (no
document saved) or saves one page per drawn row.  Note there is no
zero-row check in this variant. -/
def comicMain (sw : PyStr → String → ℚ → ℚ) (bcw bch : PyStr → ℚ)
    (rows : List (List PyStr)) : Except String (List (List DrawOp)) :=
  comicProcessRows sw bcw bch rows

/-- The card `main` (`make_card_2x2_labels.py`, lines 134-145) after the
input file was read: parse rows, abort with the no-rows error when nothing
was parsed, otherwise save one page per record. -/
def cardMain (wrapF : PyStr → String → ℚ → ℚ → List PyStr)
    (bcw : PyStr → ℚ) (rawRows : List (List PyStr)) :
    Except String (List (List DrawOp)) :=
  let rows := read_rows rawRows
  if rows.isEmpty then Except.error cardNoRowsMsg
  else Except.ok (rows.map (fun r => cardDrawLabel wrapF bcw r))

/-- Trivial width metric used by concrete witnesses. -/
def swZ : PyStr → String → ℚ → ℚ := fun _ _ _ => 0

/-- Trivial barcode width used by concrete witnesses. -/
def bcwZ : PyStr → ℚ := fun _ => 0

/-- Trivial barcode height used by concrete witnesses. -/
def bchZ : PyStr → ℚ := fun _ => 0

/-- Trivial external wrapper (one line per text) used by witnesses. -/
def wrapF0 : PyStr → String → ℚ → ℚ → List PyStr := fun t _ _ _ => [t]

/-- Concrete card record used by witnesses. -/
def cardR0 : CardRecord := ⟨[ 'a' ], [ 'a' ], [ 'a' ], [ 'a' ], [ 'a' ], [ 'a' ]⟩

/-- Concrete comic record (all columns empty) used by witnesses. -/
def comicR0 : ComicRow := ⟨[], [], [], [], [], [], [], []⟩

/-- The barcode op emitted by `cardDrawLabel wrapF0 bcwZ cardR0`. -/
def cardOpW : DrawOp := DrawOp.drawBarcode 72 (198 / 5) 1 [ 'a' ]

/-- The barcode op emitted by `draw_label swZ bcwZ bchZ comicR0`. -/
def comicOpW : DrawOp := DrawOp.drawBarcode 144 158 0 []

/-- A well-formed comic input (one non-blank row with 8 fields) used by
witnesses. -/
def rowsW : List (List PyStr) := [List.replicate 8 [ 'x' ]]

/-- A comic record whose title contains an en dash, used by the C10
witness. -/
def comicRN : ComicRow := ⟨[ 'a', '\u2013' ], [], [], [], [], [], [], []⟩

/-- The same record with the en dash replaced by a hyphen-minus. -/
def comicRN' : ComicRow := ⟨[ 'a', '-' ], [], [], [], [], [], [], []⟩

/-! ## Lemmas: Python string primitives -/

theorem pyStrip_nil : pyStrip [] = [] := rfl

theorem dropWhile_cons_false {p : Char → Bool} {a : Char} {l : List Char}
    (h : p a = false) : List.dropWhile p (a :: l) = a :: l := by
  rw [List.dropWhile_cons, if_neg]
  simp [h]

theorem dropWhile_all_false {p : Char → Bool} {l : List Char}
    (h : ∀ c ∈ l, p c = false) : List.dropWhile p l = l := by
  cases l with
  | nil => rfl
  | cons a t => exact dropWhile_cons_false (h a (List.mem_cons_self a t))

theorem pyStrip_space_cons (l : PyStr) : pyStrip (' ' :: l) = pyStrip l := by
  have h : Char.isWhitespace ' ' = true := rfl
  simp [pyStrip, List.dropWhile_cons, h]

theorem pyStrip_no_ws {l : PyStr} (h : ∀ c ∈ l, c.isWhitespace = false) :
    pyStrip l = l := by
  unfold pyStrip
  rw [dropWhile_all_false h, dropWhile_all_false, List.reverse_reverse]
  intro c hc
  exact h c (List.mem_reverse.mp hc)

theorem pyStrip_sandwich {a b : Char} (l : PyStr)
    (ha : a.isWhitespace = false) (hb : b.isWhitespace = false) :
    pyStrip (a :: (l ++ [b])) = a :: (l ++ [b]) := by
  unfold pyStrip
  rw [dropWhile_cons_false ha]
  have h2 : (a :: (l ++ [b])).reverse = b :: (l.reverse ++ [a]) := by
    simp
  rw [h2, dropWhile_cons_false hb]
  simp

theorem pySplitAux_words (s : PyStr) :
    ∀ acc, (∀ c ∈ acc, c.isWhitespace = false) →
    ∀ w ∈ pySplitAux acc s, w ≠ [] ∧ ∀ c ∈ w, c.isWhitespace = false := by
  induction s with
  | nil =>
    intro acc hacc w hw
    unfold pySplitAux at hw
    by_cases h : acc.isEmpty
    · simp [h] at hw
    · simp [h] at hw
      subst hw
      refine ⟨by simpa [List.isEmpty_iff] using h, ?_⟩
      intro c hc
      exact hacc c (List.mem_reverse.mp hc)
  | cons c cs ih =>
    intro acc hacc w hw
    unfold pySplitAux at hw
    by_cases hc : c.isWhitespace
    · rw [if_pos hc] at hw
      by_cases ha : acc.isEmpty
      · rw [if_pos ha] at hw
        exact ih [] (by intro d hd; cases hd) w hw
      · rw [if_neg ha, List.mem_cons] at hw
        rcases hw with rfl | hw
        · refine ⟨by simpa [List.isEmpty_iff] using ha, ?_⟩
          intro d hd
          exact hacc d (List.mem_reverse.mp hd)
        · exact ih [] (by intro d hd; cases hd) w hw
    · rw [if_neg hc] at hw
      refine ih (c :: acc) ?_ w hw
      intro d hd
      rw [List.mem_cons] at hd
      rcases hd with rfl | hd
      · simpa using hc
      · exact hacc d hd

theorem pySplit_words {s : PyStr} :
    ∀ w ∈ pySplit s, w ≠ [] ∧ ∀ c ∈ w, c.isWhitespace = false :=
  pySplitAux_words s [] (by intro c hc; cases hc)

/-! ## Lemmas: joinWords -/

theorem joinWords_cons₂ (w u : PyStr) (ws : List PyStr) :
    joinWords (w :: u :: ws) = w ++ ' ' :: joinWords (u :: ws) := rfl

theorem joinWords_append_single (ws : List PyStr) (w : PyStr) (h : ws ≠ []) :
    joinWords (ws ++ [w]) = joinWords ws ++ ' ' :: w := by
  induction ws with
  | nil => exact absurd rfl h
  | cons u us ih =>
    cases us with
    | nil => rfl
    | cons v vs =>
      have ih' := ih (by simp)
      simp only [List.cons_append] at ih' ⊢
      rw [joinWords_cons₂, joinWords_cons₂, ih']
      simp

theorem joinWords_ne_nil {ws : List PyStr} (h : ws ≠ [])
    (hall : ∀ w ∈ ws, w ≠ []) : joinWords ws ≠ [] := by
  cases ws with
  | nil => exact absurd rfl h
  | cons w us =>
    cases us with
    | nil => exact hall w (by simp)
    | cons v vs =>
      rw [joinWords_cons₂]
      intro hcontra
      exact hall w (by simp) (List.append_eq_nil.mp hcontra).1

theorem joinWords_head (a : Char) (cw : PyStr) (rest : List PyStr) :
    ∃ t, joinWords ((a :: cw) :: rest) = a :: t := by
  cases rest with
  | nil => exact ⟨cw, rfl⟩
  | cons u us => exact ⟨cw ++ ' ' :: joinWords (u :: us), rfl⟩

theorem pyStrip_join (cur : List PyStr) (w : PyStr)
    (hcur : ∀ u ∈ cur, u ≠ [] ∧ ∀ c ∈ u, c.isWhitespace = false)
    (hw : w ≠ []) (hwc : ∀ c ∈ w, c.isWhitespace = false) :
    pyStrip (joinWords cur ++ ' ' :: w) = joinWords (cur ++ [w]) := by
  cases cur with
  | nil =>
    show pyStrip ([] ++ ' ' :: w) = joinWords [w]
    rw [List.nil_append, pyStrip_space_cons, pyStrip_no_ws hwc]
    rfl
  | cons cu cur' =>
    obtain ⟨a, cu', rfl⟩ : ∃ a cu', cu = a :: cu' := by
      rcases cu with _ | ⟨a, cu'⟩
      · exact absurd rfl (hcur [] (by simp)).1
      · exact ⟨a, cu', rfl⟩
    obtain ⟨t, ht⟩ := joinWords_head a cu' cur'
    rcases List.eq_nil_or_concat w with rfl | ⟨w0, b, rfl⟩
    · exact absurd rfl hw
    · rw [List.concat_eq_append] at *
      have ha : a.isWhitespace = false :=
        (hcur (a :: cu') (by simp)).2 a (by simp)
      have hb : b.isWhitespace = false := hwc b (by simp)
      have hshape : joinWords ((a :: cu') :: cur') ++ ' ' :: (w0 ++ [b])
          = a :: ((t ++ ' ' :: w0) ++ [b]) := by
        rw [ht]
        simp
      rw [hshape, pyStrip_sandwich _ ha hb,
        joinWords_append_single _ _ (by simp), ht]
      simp

/-! ## The comic text wrapper: C1 and C2 -/

theorem wrapAux_text_inv (sw : PyStr → String → ℚ → ℚ)
    (x width leading : ℚ) (fn : String) (fs : ℚ) (S : List PyStr) :
    ∀ ws, (∀ w ∈ ws, w ∈ S) →
    ∀ line, (sw line fn fs ≤ width ∨ line ∈ S ∨ line = []) →
    ∀ y, ∀ op ∈ (wrapAux sw x width leading fn fs ws line y).1,
      sw op.text fn fs ≤ width ∨ op.text ∈ S ∨ op.text = [] := by
  intro ws
  induction ws with
  | nil =>
    intro _ line hline y op hop
    simp only [wrapAux] at hop
    by_cases h : line.isEmpty
    · simp [h] at hop
    · simp [h] at hop
      subst hop
      simpa [DrawOp.text] using hline
  | cons w ws ih =>
    intro hws line hline y op hop
    simp only [wrapAux] at hop
    by_cases hfit : sw (pyStrip (line ++ ' ' :: w)) fn fs ≤ width
    · rw [if_pos hfit] at hop
      exact ih (fun u hu => hws u (List.mem_cons_of_mem w hu))
        (pyStrip (line ++ ' ' :: w)) (Or.inl hfit) y op hop
    · rw [if_neg hfit] at hop
      rw [List.mem_cons] at hop
      rcases hop with rfl | hop
      · simpa [DrawOp.text] using hline
      · exact ih (fun u hu => hws u (List.mem_cons_of_mem w hu)) w
          (Or.inr (Or.inl (hws w (List.mem_cons_self w ws)))) _ op hop

/-- C1: every line drawn by the comic-variant `wrap_text` has rendered
width (under the abstract font metric `sw`, at the given font name/size)
at most `width`, except that a line may be a single whole word of the input
text whose own rendered width exceeds `width` — such a word is placed alone
on its line, never split at character level.  The only assumption on the
metric is that the empty string fits the budget (a real font metric gives
it width 0). -/
theorem comic_wrap_lines_fit (sw : PyStr → String → ℚ → ℚ) (text : PyStr)
    (x y width leading : ℚ) (fn : String) (fs : ℚ)
    (h0 : sw [] fn fs ≤ width) :
    ∀ op ∈ (wrap_text sw text x y width leading fn fs).1,
      sw op.text fn fs ≤ width ∨
        (op.text ∈ pySplit text ∧ width < sw op.text fn fs) := by
  intro op hop
  unfold wrap_text at hop
  have hinv := wrapAux_text_inv sw x width leading fn fs (pySplit text)
    (pySplit text) (fun w hw => hw) [] (Or.inr (Or.inr rfl)) y op hop
  by_cases hle : sw op.text fn fs ≤ width
  · exact Or.inl hle
  · right
    rcases hinv with h | h | h
    · exact absurd h hle
    · exact ⟨h, not_le.mp hle⟩
    · rw [h] at hle
      exact absurd h0 hle

/-- Witness for C1 at a concrete input: wrapping the text "ab" with the
zero width metric and budget 100 emits the single line "ab", which fits. -/
theorem comic_wrap_lines_fit_w :
    swZ (DrawOp.text (DrawOp.drawString 0 0 fontHB 12 [ 'a', 'b' ])) fontHB 12 ≤ 100 ∨
      (DrawOp.text (DrawOp.drawString 0 0 fontHB 12 [ 'a', 'b' ])
          ∈ pySplit [ 'a', 'b' ] ∧
        100 < swZ (DrawOp.text (DrawOp.drawString 0 0 fontHB 12 [ 'a', 'b' ])) fontHB 12) :=
  comic_wrap_lines_fit swZ [ 'a', 'b' ] 0 0 100 13 fontHB 12 (by decide)
    (DrawOp.drawString 0 0 fontHB 12 [ 'a', 'b' ]) (by decide)

theorem wrapAux_eq_greedy (sw : PyStr → String → ℚ → ℚ)
    (x width leading : ℚ) (fn : String) (fs : ℚ) :
    ∀ ws, (∀ w ∈ ws, w ≠ [] ∧ ∀ c ∈ w, c.isWhitespace = false) →
    ∀ cur, (∀ u ∈ cur, u ≠ [] ∧ ∀ c ∈ u, c.isWhitespace = false) →
    ∀ y, (wrapAux sw x width leading fn fs ws (joinWords cur) y).1.map DrawOp.text
      = greedySpecAux sw fn fs width ws cur := by
  intro ws
  induction ws with
  | nil =>
    intro _ cur hcur y
    simp only [wrapAux, greedySpecAux]
    by_cases h : cur.isEmpty
    · have hc : cur = [] := List.isEmpty_iff.mp h
      subst hc
      simp [joinWords]
    · have hne : joinWords cur ≠ [] :=
        joinWords_ne_nil (by simpa [List.isEmpty_iff] using h)
          (fun w hw => (hcur w hw).1)
      rw [if_neg (by simpa [List.isEmpty_iff] using hne), if_neg h]
      simp [DrawOp.text]
  | cons w ws ih =>
    intro hws cur hcur y
    have hw := hws w (List.mem_cons_self w ws)
    have hkey : pyStrip (joinWords cur ++ ' ' :: w) = joinWords (cur ++ [w]) :=
      pyStrip_join cur w hcur hw.1 hw.2
    have htail : ∀ u ∈ ws, u ≠ [] ∧ ∀ c ∈ u, c.isWhitespace = false :=
      fun u hu => hws u (List.mem_cons_of_mem w hu)
    simp only [wrapAux, greedySpecAux, hkey]
    by_cases hfit : sw (joinWords (cur ++ [w])) fn fs ≤ width
    · rw [if_pos hfit, if_pos hfit]
      refine ih htail (cur ++ [w]) ?_ y
      intro u hu
      rw [List.mem_append] at hu
      rcases hu with hu | hu
      · exact hcur u hu
      · rw [List.mem_singleton] at hu
        subst hu
        exact hw
    · rw [if_neg hfit, if_neg hfit]
      have hrest := ih htail [w] (by
        intro u hu
        rw [List.mem_singleton] at hu
        subst hu
        exact hw) (y - leading)
      simp only [joinWords] at hrest
      simp [DrawOp.text, hrest]

/-- C2: the comic-variant `wrap_text` emits exactly the line sequence of
the greedy word-boundary algorithm described by the spec (`greedySpecWrap`):
words are accumulated while the tentative line fits, the current line is
flushed when it does not, the overflowing word starts the next line, and the
final non-empty current line is emitted last. -/
theorem comic_wrap_matches_greedy (sw : PyStr → String → ℚ → ℚ)
    (text : PyStr) (x y width leading : ℚ) (fn : String) (fs : ℚ) :
    (wrap_text sw text x y width leading fn fs).1.map DrawOp.text
      = greedySpecWrap sw fn fs width text := by
  unfold wrap_text greedySpecWrap
  exact wrapAux_eq_greedy sw x width leading fn fs (pySplit text)
    pySplit_words [] (by intro u hu; cases hu) y

/-! ## The card row reader: C5 -/

/-- C5: for every input row, the card-variant extraction right-pads to 7
fields, slices to the first 7, strips each field, and the record's fields
equal the stripped input fields in order with the fourth (price-source)
column dropped (a missing field reads as the empty string). -/
theorem card_row_fields (raw : List PyStr) :
    cardRowRecord raw =
      { title := pyStrip (raw.getD 0 []), b1 := pyStrip (raw.getD 1 []),
        b2 := pyStrip (raw.getD 2 []), price := pyStrip (raw.getD 4 []),
        inv := pyStrip (raw.getD 5 []), barcode := pyStrip (raw.getD 6 []) } := by
  rcases raw with _ | ⟨a, _ | ⟨b, _ | ⟨c, _ | ⟨d, _ | ⟨e, _ | ⟨f, _ | ⟨g, rest⟩⟩⟩⟩⟩⟩⟩ <;> rfl

/-! ## Barcode placement: C3 and C4 -/

theorem cardTitleLoop_no_bc (x : ℚ) :
    ∀ ls y fb, ∀ op ∈ (cardTitleLoop x ls y fb).1, op.isBarcode = false := by
  intro ls
  induction ls with
  | nil => intro y fb op hop; simp [cardTitleLoop] at hop
  | cons l ls ih =>
    intro y fb op hop
    simp only [cardTitleLoop] at hop
    rw [List.mem_cons] at hop
    rcases hop with rfl | hop
    · rfl
    · exact ih _ _ op hop

theorem cardBulletLoop_no_bc (x : ℚ) :
    ∀ ls y, ∀ op ∈ (cardBulletLoop x ls y).1, op.isBarcode = false := by
  intro ls
  induction ls with
  | nil => intro y op hop; simp [cardBulletLoop] at hop
  | cons l ls ih =>
    intro y op hop
    cases ls with
    | nil =>
      simp [cardBulletLoop] at hop
      subst hop
      rfl
    | cons l2 ls2 =>
      simp only [cardBulletLoop] at hop
      rw [List.mem_cons] at hop
      rcases hop with rfl | hop
      · rfl
      · exact ih _ op hop

theorem cardBullets_no_bc (wrapF : PyStr → String → ℚ → ℚ → List PyStr)
    (x uw : ℚ) :
    ∀ ts y, ∀ op ∈ (cardBullets wrapF x uw ts y).1, op.isBarcode = false := by
  intro ts
  induction ts with
  | nil => intro y op hop; simp [cardBullets] at hop
  | cons t ts ih =>
    intro y op hop
    simp only [cardBullets] at hop
    rw [List.mem_append] at hop
    rcases hop with hop | hop
    · exact cardBulletLoop_no_bc x _ _ op hop
    · exact ih _ op hop

theorem cardLayout_no_bc (wrapF : PyStr → String → ℚ → ℚ → List PyStr)
    (r : CardRecord) :
    ∀ op ∈ (cardLayout wrapF r).1, op.isBarcode = false := by
  intro op hop
  simp only [cardLayout] at hop
  rw [List.mem_append] at hop
  rcases hop with hop | hop
  · exact cardTitleLoop_no_bc _ _ _ _ op hop
  · exact cardBullets_no_bc wrapF _ _ _ _ op hop

/-- C3: in the card variant the barcode op's vertical position is
`max 8 (y - BARCODE_HEIGHT)` where `y` is the cursor left by the text
section, so it never falls below the floor clamp 8 — for every record and
every behaviour of the external wrapper (however many lines precede the
barcode and however negative the cursor becomes). -/
theorem card_barcode_floor (wrapF : PyStr → String → ℚ → ℚ → List PyStr)
    (bcw : PyStr → ℚ) (r : CardRecord) :
    ∀ op ∈ cardDrawLabel wrapF bcw r, op.isBarcode = true →
      op.yPos = max 8 ((cardLayout wrapF r).2 - 0.45 * 72) ∧ 8 ≤ op.yPos := by
  intro op hop hbc
  simp only [cardDrawLabel] at hop
  rw [List.mem_append] at hop
  rcases hop with hop | hop
  · rw [cardLayout_no_bc wrapF r op hop] at hbc
    cases hbc
  · rw [List.mem_cons] at hop
    rcases hop with rfl | hop
    · exact ⟨rfl, le_max_left _ _⟩
    · rw [List.mem_cons] at hop
      rcases hop with rfl | hop
      · cases hbc
      · cases hop

/-- Witness for C3 at a concrete record and wrapper: the emitted barcode op
is `cardOpW` and its height `198/5` is the clamp value, at least 8. -/
theorem card_barcode_floor_w :
    DrawOp.yPos cardOpW = max 8 ((cardLayout wrapF0 cardR0).2 - 0.45 * 72) ∧
      8 ≤ DrawOp.yPos cardOpW :=
  card_barcode_floor wrapF0 bcwZ cardR0 cardOpW
    (by norm_num [cardDrawLabel, cardLayout, cardTitleLoop, cardBullets,
      cardBulletLoop, cardBulletLine, wrapF0, bcwZ, cardOpW, cardR0]) rfl

theorem wrapAux_no_bc (sw : PyStr → String → ℚ → ℚ)
    (x width leading : ℚ) (fn : String) (fs : ℚ) :
    ∀ ws line y, ∀ op ∈ (wrapAux sw x width leading fn fs ws line y).1,
      op.isBarcode = false := by
  intro ws
  induction ws with
  | nil =>
    intro line y op hop
    simp only [wrapAux] at hop
    by_cases h : line.isEmpty
    · simp [h] at hop
    · simp [h] at hop
      subst hop
      rfl
  | cons w ws ih =>
    intro line y op hop
    simp only [wrapAux] at hop
    by_cases hfit : sw (pyStrip (line ++ ' ' :: w)) fn fs ≤ width
    · rw [if_pos hfit] at hop
      exact ih _ _ op hop
    · rw [if_neg hfit] at hop
      rw [List.mem_cons] at hop
      rcases hop with rfl | hop
      · rfl
      · exact ih _ _ op hop

theorem wrap_text_no_bc (sw : PyStr → String → ℚ → ℚ) (text : PyStr)
    (x y width leading : ℚ) (fn : String) (fs : ℚ) :
    ∀ op ∈ (wrap_text sw text x y width leading fn fs).1,
      op.isBarcode = false := by
  intro op hop
  unfold wrap_text at hop
  exact wrapAux_no_bc sw x width leading fn fs _ _ _ op hop

theorem drawBullets_no_bc (sw : PyStr → String → ℚ → ℚ) (x : ℚ) :
    ∀ bs y, ∀ op ∈ (drawBullets sw x bs y).1, op.isBarcode = false := by
  intro bs
  induction bs with
  | nil => intro y op hop; simp [drawBullets] at hop
  | cons b bs ih =>
    intro y op hop
    simp only [drawBullets] at hop
    rw [List.mem_append] at hop
    rcases hop with hop | hop
    · exact wrap_text_no_bc sw _ _ _ _ _ _ _ op hop
    · exact ih _ op hop

theorem bulletsAndPublisher_no_bc (sw : PyStr → String → ℚ → ℚ) (x : ℚ)
    (bs : List PyStr) (publisher : PyStr) (y : ℚ) :
    ∀ op ∈ (bulletsAndPublisher sw x bs publisher y).1,
      op.isBarcode = false := by
  intro op hop
  simp only [bulletsAndPublisher] at hop
  by_cases h : (pyStrip publisher).isEmpty
  · rw [if_pos h] at hop
    exact drawBullets_no_bc sw x _ _ op hop
  · rw [if_neg h] at hop
    rw [List.mem_append] at hop
    rcases hop with hop | hop
    · exact drawBullets_no_bc sw x _ _ op hop
    · exact wrap_text_no_bc sw _ _ _ _ _ _ _ op hop

/-- C4: in the comic variant the barcode op's scale is
`min(targetWidth / nativeWidth, 1.8)` with `targetWidth = 2.6 * 72`, hence
never more than 1.8, and its x position `(288 - nativeWidth * scale) / 2`
leaves equal margins on the 288-point-wide page (the payload being the
normalized barcode column). -/
theorem comic_barcode_geometry (sw : PyStr → String → ℚ → ℚ)
    (bcw bch : PyStr → ℚ) (r : ComicRow) :
    ∀ op ∈ draw_label sw bcw bch r, op.isBarcode = true →
      op.scaleOf = min ((2.6 * 72) / bcw (normalize_text r.barcode_num)) 1.8 ∧
      op.scaleOf ≤ 1.8 ∧
      op.xPos = (288 - bcw (normalize_text r.barcode_num) * op.scaleOf) / 2 ∧
      288 - (op.xPos + bcw (normalize_text r.barcode_num) * op.scaleOf) = op.xPos := by
  intro op hop hbc
  simp only [draw_label, drawLabelCore, normalizeRow] at hop
  rw [List.mem_append] at hop
  rcases hop with hop | hop
  · rw [List.mem_append] at hop
    rcases hop with hop | hop
    · rw [List.mem_append] at hop
      rcases hop with hop | hop
      · rw [wrap_text_no_bc sw _ _ _ _ _ _ _ op hop] at hbc
        cases hbc
      · rw [bulletsAndPublisher_no_bc sw _ _ _ _ op hop] at hbc
        cases hbc
    · rw [List.mem_cons] at hop
      rcases hop with rfl | hop
      · cases hbc
      · rw [List.mem_cons] at hop
        rcases hop with rfl | hop
        · cases hbc
        · cases hop
  · rw [List.mem_cons] at hop
    rcases hop with rfl | hop
    · cases hbc
    · rw [List.mem_cons] at hop
      rcases hop with rfl | hop
      · cases hbc
      · rw [List.mem_cons] at hop
        rcases hop with rfl | hop
        · refine ⟨rfl, min_le_right _ _, rfl, ?_⟩
          simp only [DrawOp.xPos, DrawOp.scaleOf]
          ring
        · rw [List.mem_cons] at hop
          rcases hop with rfl | hop
          · cases hbc
          · cases hop

/-- Witness for C4 at a concrete record: the barcode op of
`draw_label swZ bcwZ bchZ comicR0` is `comicOpW`; its scale is the capped
ratio (here 0, as `bcwZ` gives width 0), at most 1.8, and centered. -/
theorem comic_barcode_geometry_w :
    DrawOp.scaleOf comicOpW
        = min ((2.6 * 72) / bcwZ (normalize_text comicR0.barcode_num)) 1.8 ∧
      DrawOp.scaleOf comicOpW ≤ 1.8 ∧
      DrawOp.xPos comicOpW
        = (288 - bcwZ (normalize_text comicR0.barcode_num) * DrawOp.scaleOf comicOpW) / 2 ∧
      288 - (DrawOp.xPos comicOpW
          + bcwZ (normalize_text comicR0.barcode_num) * DrawOp.scaleOf comicOpW)
        = DrawOp.xPos comicOpW :=
  comic_barcode_geometry swZ bcwZ bchZ comicR0 comicOpW
    (by norm_num [draw_label, drawLabelCore, normalizeRow, normalize_text,
      bulletsAndPublisher, drawBullets, wrap_text, wrapAux, pySplit, pySplitAux,
      pyStrip, swZ, bcwZ, bchZ, comicOpW, comicR0, comicPubLine]) rfl

/-! ## Batch behaviour: C6, C7, C8 -/

theorem comicProcessRows_short_err (sw : PyStr → String → ℚ → ℚ)
    (bcw bch : PyStr → ℚ) :
    ∀ rows : List (List PyStr),
      (∃ row ∈ rows, isBlankRow row = false ∧ row.length < 8) →
      comicProcessRows sw bcw bch rows = Except.error comicSchemaMsg := by
  intro rows
  induction rows with
  | nil =>
    rintro ⟨row, hmem, _⟩
    cases hmem
  | cons row rest ih =>
    rintro ⟨r0, hmem, hr0⟩
    rw [List.mem_cons] at hmem
    simp only [comicProcessRows]
    by_cases hb : isBlankRow row = true
    · rw [if_pos hb]
      rcases hmem with rfl | hmem
      · rw [hr0.1] at hb
        cases hb
      · exact ih ⟨r0, hmem, hr0⟩
    · rw [if_neg hb]
      by_cases hlen : row.length < 8
      · rw [if_pos hlen]
      · rw [if_neg hlen]
        rcases hmem with rfl | hmem
        · exact absurd hr0.2 hlen
        · rw [ih ⟨r0, hmem, hr0⟩]
          rfl

/-- C6: if any non-blank comic row has fewer than 8 fields, the whole run
aborts with the schema error message and no output document is saved (the
result is an `Except.error`, and `c.save()` is never reached). -/
theorem comic_short_row_aborts (sw : PyStr → String → ℚ → ℚ)
    (bcw bch : PyStr → ℚ) (rows : List (List PyStr))
    (h : ∃ row ∈ rows, isBlankRow row = false ∧ row.length < 8) :
    comicMain sw bcw bch rows = Except.error comicSchemaMsg :=
  comicProcessRows_short_err sw bcw bch rows h

/-- Witness for C6: a single 1-field row aborts the comic run with the
schema error. -/
theorem comic_short_row_aborts_w :
    comicMain swZ bcwZ bchZ [ [ [ 'x' ] ] ] = Except.error comicSchemaMsg :=
  comic_short_row_aborts swZ bcwZ bchZ [ [ [ 'x' ] ] ] (by decide)

theorem comicProcessRows_ok (sw : PyStr → String → ℚ → ℚ)
    (bcw bch : PyStr → ℚ) :
    ∀ rows : List (List PyStr),
      (∀ row ∈ rows, isBlankRow row = false → 8 ≤ row.length) →
      comicProcessRows sw bcw bch rows
        = Except.ok ((rows.filter (fun r => !isBlankRow r)).map
            (fun row => draw_label sw bcw bch (comicRowRecord (row.take 8)))) := by
  intro rows
  induction rows with
  | nil => intro _; rfl
  | cons row rest ih =>
    intro h
    simp only [comicProcessRows, List.filter_cons]
    by_cases hb : isBlankRow row = true
    · rw [if_pos hb, ih (fun r hr => h r (List.mem_cons_of_mem row hr))]
      simp [hb]
    · have hb' : isBlankRow row = false := by
        cases hq : isBlankRow row
        · rfl
        · exact absurd hq hb
      have hlen : ¬row.length < 8 :=
        Nat.not_lt.mpr (h row (List.mem_cons_self row rest) hb')
      rw [if_neg hb, if_neg hlen, ih (fun r hr => h r (List.mem_cons_of_mem row hr))]
      simp [hb', Except.map]

/-- Counterexample to C7 as stated: the comic variant performs no zero-row
check — on an input with zero valid records it completes normally and
saves an output document with no pages, instead of aborting. -/
theorem comic_zero_rows_saves :
    comicMain swZ bcwZ bchZ [] = Except.ok [] := rfl

/-- C7 (amended): when zero valid records are parsed, the card variant
aborts with the "No rows parsed" error and writes no output file; the comic
variant, which has no such check, saves an output document with no
pages. -/
theorem zero_rows_behavior (wrapF : PyStr → String → ℚ → ℚ → List PyStr)
    (bcw : PyStr → ℚ) (sw : PyStr → String → ℚ → ℚ) (bcw2 bch : PyStr → ℚ)
    (rawRows rows : List (List PyStr))
    (h1 : read_rows rawRows = [])
    (h2 : ∀ row ∈ rows, isBlankRow row = true) :
    cardMain wrapF bcw rawRows = Except.error cardNoRowsMsg ∧
      comicMain sw bcw2 bch rows = Except.ok [] := by
  constructor
  · simp [cardMain, h1]
  · have hall : ∀ row ∈ rows, isBlankRow row = false → 8 ≤ row.length := by
      intro row hr hb
      rw [h2 row hr] at hb
      cases hb
    have hf : rows.filter (fun r => !isBlankRow r) = [] := by
      rw [List.filter_eq_nil_iff]
      intro a ha
      simp [h2 a ha]
    have := comicProcessRows_ok sw bcw2 bch rows hall
    rw [hf] at this
    exact this

/-- Witness for C7 (amended) at concrete inputs: one all-whitespace card
row parses to zero records and aborts; the empty comic input saves an
empty document. -/
theorem zero_rows_behavior_w :
    cardMain wrapF0 bcwZ [ [ [ ' ' ] ] ] = Except.error cardNoRowsMsg ∧
      comicMain swZ bcwZ bchZ ([] : List (List PyStr)) = Except.ok [] :=
  zero_rows_behavior wrapF0 bcwZ swZ bcwZ bchZ [ [ [ ' ' ] ] ] []
    (by decide) (by decide)

theorem read_rows_filter :
    ∀ rawRows : List (List PyStr),
      read_rows rawRows
        = (rawRows.filter (fun r => !isBlankRow r)).map cardRowRecord := by
  intro rawRows
  induction rawRows with
  | nil => rfl
  | cons raw rest ih =>
    simp only [read_rows, List.filter_cons]
    by_cases hb : isBlankRow raw = true
    · rw [if_pos hb, ih]
      simp [hb]
    · have hb' : isBlankRow raw = false := by
        cases hq : isBlankRow raw
        · rfl
        · exact absurd hq hb
      rw [if_neg hb, ih]
      simp [hb']

/-- Counterexample to C8 as stated: an input with exactly one non-blank
line (a single 1-field row) makes the comic variant abort, so zero label
pages are rendered while the non-blank line count is 1. -/
theorem comic_count_mismatch :
    comicMain swZ bcwZ bchZ [ [ [ 'x' ] ] ] = Except.error comicSchemaMsg ∧
      (([ [ [ 'x' ] ] ] : List (List PyStr)).filter
          (fun r => !isBlankRow r)).length = 1 := by
  exact ⟨rfl, rfl⟩

/-- C8 (amended): the card reader yields exactly one record per non-blank
row, in input order (so its record count equals the non-blank line count);
the comic variant does the same — one page per non-blank row, in order —
provided every non-blank row has at least 8 fields (otherwise it aborts,
see C6). -/
theorem row_counts (sw : PyStr → String → ℚ → ℚ) (bcw bch : PyStr → ℚ)
    (rawRows rows : List (List PyStr))
    (h : ∀ row ∈ rows, isBlankRow row = false → 8 ≤ row.length) :
    read_rows rawRows
        = (rawRows.filter (fun r => !isBlankRow r)).map cardRowRecord ∧
      (read_rows rawRows).length
        = (rawRows.filter (fun r => !isBlankRow r)).length ∧
      comicMain sw bcw bch rows
        = Except.ok ((rows.filter (fun r => !isBlankRow r)).map
            (fun row => draw_label sw bcw bch (comicRowRecord (row.take 8)))) :=
  ⟨read_rows_filter rawRows,
   by rw [read_rows_filter rawRows, List.length_map],
   comicProcessRows_ok sw bcw bch rows h⟩

/-- Witness for C8 (amended) at concrete inputs: one non-blank card row
gives one record; one well-formed 8-field comic row gives one page. -/
theorem row_counts_w :
    read_rows [ [ [ 'x' ] ] ]
        = (([ [ [ 'x' ] ] ] : List (List PyStr)).filter
            (fun r => !isBlankRow r)).map cardRowRecord ∧
      (read_rows [ [ [ 'x' ] ] ]).length
        = (([ [ [ 'x' ] ] ] : List (List PyStr)).filter
            (fun r => !isBlankRow r)).length ∧
      comicMain swZ bcwZ bchZ rowsW
        = Except.ok ((rowsW.filter (fun r => !isBlankRow r)).map
            (fun row => draw_label swZ bcwZ bchZ (comicRowRecord (row.take 8)))) :=
  row_counts swZ bcwZ bchZ [ [ [ 'x' ] ] ] rowsW (by decide)

/-! ## Blank bullets and publisher: C9 -/

theorem bullet_filter_eq (bs : List PyStr) :
    bs.filter (fun b => !b.isEmpty && !(pyStrip b).isEmpty)
      = bs.filter (fun b => !(pyStrip b).isEmpty) := by
  apply List.filter_congr
  intro b _
  cases b with
  | nil => rfl
  | cons c t => rfl

theorem drawBullets_spec (sw : PyStr → String → ℚ → ℚ) (x : ℚ) :
    ∀ bs y, drawBullets sw x bs y
      = comicSectionSpec sw x (bs.map (fun b => (comicBulletLine b, fontH))) y := by
  intro bs
  induction bs with
  | nil => intro y; rfl
  | cons b bs ih =>
    intro y
    simp only [drawBullets, List.map_cons, comicSectionSpec, ih]

theorem comicSectionSpec_append (sw : PyStr → String → ℚ → ℚ) (x : ℚ) :
    ∀ l1 l2 y, comicSectionSpec sw x (l1 ++ l2) y
      = ((comicSectionSpec sw x l1 y).1
           ++ (comicSectionSpec sw x l2 (comicSectionSpec sw x l1 y).2).1,
         (comicSectionSpec sw x l2 (comicSectionSpec sw x l1 y).2).2) := by
  intro l1
  induction l1 with
  | nil => intro l2 y; rfl
  | cons it l1 ih =>
    intro l2 y
    simp only [List.cons_append, comicSectionSpec, List.append_eq, ih,
      List.append_assoc]

/-- C9: (a) a bullet column that is empty or whitespace-only contributes no
draw op and leaves the cursor unchanged — removing it from the bullet list
changes nothing; (b) what lines 71-81 draw is exactly the non-blank bullets
in order, each as the bullet glyph plus the stripped text (Helvetica 11),
followed by the glyph-prefixed stripped publisher line (Helvetica-Oblique)
only when the publisher is non-blank. -/
theorem comic_blank_fields (sw : PyStr → String → ℚ → ℚ) (x y : ℚ)
    (bs1 bs2 bs : List PyStr) (b pub : PyStr) (hb : pyStrip b = []) :
    bulletsAndPublisher sw x (bs1 ++ b :: bs2) pub y
        = bulletsAndPublisher sw x (bs1 ++ bs2) pub y ∧
      bulletsAndPublisher sw x bs pub y
        = comicSectionSpec sw x (comicSectionItems bs pub) y := by
  constructor
  · unfold bulletsAndPublisher
    have hfe : (bs1 ++ b :: bs2).filter (fun u => !u.isEmpty && !(pyStrip u).isEmpty)
        = (bs1 ++ bs2).filter (fun u => !u.isEmpty && !(pyStrip u).isEmpty) := by
      simp [List.filter_append, List.filter_cons, hb]
    rw [hfe]
  · unfold bulletsAndPublisher comicSectionItems
    rw [bullet_filter_eq, comicSectionSpec_append,
      ← drawBullets_spec sw x (bs.filter (fun u => !(pyStrip u).isEmpty)) y]
    by_cases hp : (pyStrip pub).isEmpty
    · rw [if_pos hp, if_pos hp]
      simp [comicSectionSpec]
    · rw [if_neg hp, if_neg hp]
      simp [comicSectionSpec]

/-- Witness for C9 at concrete inputs: a whitespace-only bullet between
empty bullet lists, with a blank publisher, draws nothing. -/
theorem comic_blank_fields_w :
    bulletsAndPublisher swZ 0 ([] ++ [ ' ' ] :: []) [] 0
        = bulletsAndPublisher swZ 0 ([] ++ []) [] 0 ∧
      bulletsAndPublisher swZ 0 [] [] 0
        = comicSectionSpec swZ 0 (comicSectionItems [] []) 0 :=
  comic_blank_fields swZ 0 0 [] [] [] [ ' ' ] [] (by decide)

/-! ## Normalization invariance: C10 -/

theorem normalize_eq_map (s : PyStr) : normalize_text s = s.map normChar := by
  cases s with
  | nil => rfl
  | cons a t =>
    show pyReplaceChar '\u2010' '-'
        (pyReplaceChar '\u00a0' ' '
          (pyReplaceChar '\u2014' '-'
            (pyReplaceChar '\u2013' '-'
              (pyReplaceChar '\u2011' '-' (a :: t))))) = (a :: t).map normChar
    unfold pyReplaceChar
    simp only [List.map_map]
    refine List.map_congr_left ?_
    intro c _
    simp only [Function.comp_apply]
    by_cases h1 : c = '\u2011'
    · subst h1; decide
    · by_cases h2 : c = '\u2013'
      · subst h2; decide
      · by_cases h3 : c = '\u2014'
        · subst h3; decide
        · by_cases h4 : c = '\u00a0'
          · subst h4; decide
          · by_cases h5 : c = '\u2010'
            · subst h5; decide
            · simp [normChar, h1, h2, h3, h4, h5]

theorem normChar_normChar (c : Char) : normChar (normChar c) = normChar c := by
  by_cases h1 : c = '\u2011' ∨ c = '\u2013' ∨ c = '\u2014' ∨ c = '\u2010'
  · have hc : normChar c = '-' := by simp only [normChar, if_pos h1]
    rw [hc]
    decide
  · by_cases h2 : c = '\u00a0'
    · have hc : normChar c = ' ' := by simp only [normChar, if_neg h1, if_pos h2]
      rw [hc]
      decide
    · have hc : normChar c = c := by simp only [normChar, if_neg h1, if_neg h2]
      rw [hc, hc]

theorem substOk_norm : ∀ s t : PyStr, substOk s t = true →
    t.map normChar = s.map normChar := by
  intro s
  induction s with
  | nil =>
    intro t h
    cases t with
    | nil => rfl
    | cons b t => simp [substOk] at h
  | cons a s ih =>
    intro t h
    cases t with
    | nil => simp [substOk] at h
    | cons b t =>
      simp only [substOk, Bool.and_eq_true, Bool.or_eq_true,
        decide_eq_true_eq] at h
      rcases h with ⟨hb, ht⟩
      simp only [List.map_cons]
      rw [ih t ht]
      congr 1
      rcases hb with rfl | rfl
      · rfl
      · exact normChar_normChar a

theorem normalize_substOk {s t : PyStr} (h : substOk s t = true) :
    normalize_text t = normalize_text s := by
  rw [normalize_eq_map, normalize_eq_map, substOk_norm s t h]

/-- C10: every column is normalized (U+2011, U+2013, U+2014, U+2010 to
hyphen-minus and U+00A0 to space) before any measuring or drawing, so the
draw ops of a record are identical to those of the record with any of these
characters already substituted by their ASCII replacements in any field. -/
theorem comic_normalization_invariance (sw : PyStr → String → ℚ → ℚ)
    (bcw bch : PyStr → ℚ) (r r' : ComicRow)
    (h1 : substOk r.title r'.title = true) (h2 : substOk r.b1 r'.b1 = true)
    (h3 : substOk r.b2 r'.b2 = true) (h4 : substOk r.b3 r'.b3 = true)
    (h5 : substOk r.publisher r'.publisher = true)
    (h6 : substOk r.price r'.price = true)
    (h7 : substOk r.inv_id r'.inv_id = true)
    (h8 : substOk r.barcode_num r'.barcode_num = true) :
    draw_label sw bcw bch r' = draw_label sw bcw bch r := by
  have hn : normalizeRow r' = normalizeRow r := by
    unfold normalizeRow
    rw [normalize_substOk h1, normalize_substOk h2, normalize_substOk h3,
      normalize_substOk h4, normalize_substOk h5, normalize_substOk h6,
      normalize_substOk h7, normalize_substOk h8]
  unfold draw_label
  rw [hn]

/-- Witness for C10: replacing the en dash of `comicRN`'s title by a
hyphen-minus (giving `comicRN'`) leaves the emitted draw ops unchanged. -/
theorem comic_normalization_invariance_w :
    draw_label swZ bcwZ bchZ comicRN' = draw_label swZ bcwZ bchZ comicRN :=
  comic_normalization_invariance swZ bcwZ bchZ comicRN comicRN'
    (by decide) (by decide) (by decide) (by decide)
    (by decide) (by decide) (by decide) (by decide)

end LabelTools
